import Mathlib

/-!
Verification development for the ACID-vs-BASE benchmark harness.

Shallow embedding of the concurrency-benchmark engine of the repository:
the concurrent-orders adapters (`src/benchmarks/concurrent_orders/{postgres,
mongodb,cassandra}.py`), the rollback/compensation adapters
(`src/benchmarks/rollback/{postgres,mongodb,cassandra}.py`), their
percentile/median statistics, setup seeding and post-run verifiers (`kpis`).

Conventions of the embedding:
* Latency samples (Python floats holding millisecond durations) are modelled
  as rationals (`ℚ`); the integer/rational values the benchmark feeds into
  `round(0.95 * (n - 1))` are small enough that IEEE-754 double rounding of
  `0.95 * (n - 1)` agrees with exact rational arithmetic, so `round` is
  modelled as exact round-half-to-even on `ℚ`.
* Backend tables are modelled logically: an inventory quantity is an `Int`,
  order/payment statuses are inductive types, a collection is a `List`.
* Concurrency is modelled by small-step transition relations over a state
  that carries the shared database value plus each worker's local phase;
  one Python bytecode-to-network step of a worker is one transition.
  Postgres SERIALIZABLE transactions are modelled as atomic steps
  (a committed transaction applies its whole body at once, an aborted
  one applies nothing), which is exactly the guarantee SERIALIZABLE gives.
-/

namespace Shop

/-! ## Percentile and median statistics

`p95` embeds the `p95` closure of `ConcurrentOrdersPostgres.run` /
`ConcurrentOrdersMongo.run` / `ConcurrentOrdersCassandra.run`:
`xs = sorted(xs); k = int(round(0.95 * (len(xs) - 1))); return xs[k]`
with `0.0` for an empty sample list.

`median` embeds Python's `statistics.median` (sort; middle element for odd
length, mean of the two middle elements for even length), which is what the
adapters use for p50: `statistics.median(self.lat_ms) if self.lat_ms else 0.0`.
-/

/-- Sort a list of rationals ascending (Python `sorted`). -/
def sortQ (xs : List ℚ) : List ℚ := xs.insertionSort (· ≤ ·)

/-- Python `round` on a nonnegative-or-not rational: round half to even. -/
def pyRound (q : ℚ) : ℤ :=
  if q - ⌊q⌋ < 1 / 2 then ⌊q⌋
  else if 1 / 2 < q - ⌊q⌋ then ⌊q⌋ + 1
  else if ⌊q⌋ % 2 = 0 then ⌊q⌋ else ⌊q⌋ + 1

/-- The adapters' `p95` closure. -/
def p95 (xs : List ℚ) : ℚ :=
  if xs = [] then 0
  else (sortQ xs).getD (pyRound (19 / 20 * ((xs.length : ℚ) - 1))).toNat 0

/-- Python `statistics.median` on a nonempty list. -/
def median (xs : List ℚ) : ℚ :=
  let s := sortQ xs
  let n := s.length
  if n % 2 = 1 then s.getD (n / 2) 0
  else (s.getD (n / 2 - 1) 0 + s.getD (n / 2) 0) / 2

/-- The adapters' p50: `statistics.median(self.lat_ms) if self.lat_ms else 0.0`. -/
def p50 (xs : List ℚ) : ℚ :=
  if xs = [] then 0 else median xs

/-- Nearest-rank percentile as the spec words it: sort, take the element at
0-indexed rank `round(p * (n - 1))` with ties rounded half up. -/
def specNearestRank (p : ℚ) (xs : List ℚ) : ℚ :=
  if xs = [] then 0
  else (sortQ xs).getD ⌊p * ((xs.length : ℚ) - 1) + 1 / 2⌋.toNat 0

theorem pyRound_nonneg (q : ℚ) (h : 0 ≤ q) : 0 ≤ pyRound q := by
  have hf : (0 : ℤ) ≤ ⌊q⌋ := Int.floor_nonneg.mpr h
  unfold pyRound
  split
  · exact hf
  · split
    · omega
    · split <;> omega

theorem pyRound_le (q : ℚ) (m : ℤ) (h : q ≤ m) : pyRound q ≤ m := by
  have hfm : ⌊q⌋ ≤ m := by
    have := Int.floor_le_floor (α := ℚ) h
    simpa using this
  unfold pyRound
  split
  · exact hfm
  · rename_i h1
    have hlt : ⌊q⌋ < m := by
      rcases lt_or_eq_of_le hfm with hlt | heq
      · exact hlt
      · exfalso
        apply h1
        have hq : q ≤ (⌊q⌋ : ℚ) := by rw [heq]; exact_mod_cast h
        have : q - ⌊q⌋ ≤ 0 := by linarith
        linarith
    split
    · omega
    · split <;> omega

/-- The list `[0, 1, ..., n-1]` as rationals, used as a concrete sample set. -/
def qRange (n : ℕ) : List ℚ :=
  (List.range n).map fun k => (k : ℚ)

theorem p95_mem (xs : List ℚ) (h : xs ≠ []) : p95 xs ∈ xs := by
  have hn : 1 ≤ xs.length := List.length_pos.mpr h
  have hq0 : 0 ≤ 19 / 20 * ((xs.length : ℚ) - 1) := by
    apply mul_nonneg (by norm_num)
    have : (1 : ℚ) ≤ (xs.length : ℚ) := by exact_mod_cast hn
    linarith
  have hqle : 19 / 20 * ((xs.length : ℚ) - 1) ≤ ((xs.length - 1 : ℤ) : ℚ) := by
    have h1 : (1 : ℚ) ≤ (xs.length : ℚ) := by exact_mod_cast hn
    push_cast
    nlinarith
  have hk0 := pyRound_nonneg _ hq0
  have hkle := pyRound_le _ _ hqle
  have hklt : (pyRound (19 / 20 * ((xs.length : ℚ) - 1))).toNat < (sortQ xs).length := by
    rw [sortQ, List.length_insertionSort]
    omega
  rw [p95, if_neg h]
  rw [List.getD_eq_getElem _ _ hklt]
  have hmem := List.getElem_mem hklt
  simp only [sortQ] at hmem
  exact (List.mem_insertionSort _).mp hmem

theorem sortQ_length (xs : List ℚ) : (sortQ xs).length = xs.length :=
  List.length_insertionSort _ xs

theorem p50_odd (xs : List ℚ) (h : xs ≠ []) (hodd : xs.length % 2 = 1) :
    p50 xs = (sortQ xs).getD (xs.length / 2) 0 ∧ p50 xs ∈ xs := by
  have hlen := sortQ_length xs
  have hn : 1 ≤ xs.length := List.length_pos.mpr h
  have hval : p50 xs = (sortQ xs).getD (xs.length / 2) 0 := by
    rw [p50, if_neg h, median]
    simp only [hlen, hodd]
    norm_num
  refine ⟨hval, ?_⟩
  rw [hval]
  have hidx : xs.length / 2 < (sortQ xs).length := by
    rw [hlen]; omega
  rw [List.getD_eq_getElem _ _ hidx]
  have hmem := List.getElem_mem hidx
  simp only [sortQ] at hmem
  exact (List.mem_insertionSort _).mp hmem

theorem p50_even (xs : List ℚ) (h : xs ≠ []) (heven : xs.length % 2 = 0) :
    p50 xs = ((sortQ xs).getD (xs.length / 2 - 1) 0 + (sortQ xs).getD (xs.length / 2) 0) / 2 := by
  have hlen := sortQ_length xs
  rw [p50, if_neg h, median]
  simp only [hlen, heven]
  norm_num

/-- C3 counterexample: the adapters compute p50 with `statistics.median`,
which on the even-length sample list `[10, 20]` returns the mean `15` of the
two middle samples, whereas the claimed nearest-rank computation (0-indexed
rank `round(p * (n-1))`, ties half up) would return the sample `20`. -/
theorem c3_counterexample :
    p50 [10, 20] = 15 ∧ specNearestRank (1 / 2) [10, 20] = 20 ∧
      p50 [10, 20] ≠ specNearestRank (1 / 2) [10, 20] := by
  have h1 : p50 [10, 20] = 15 := by
    rw [p50, if_neg (by simp)]
    norm_num [median, sortQ, List.insertionSort, List.orderedInsert]
  have h2 : specNearestRank (1 / 2) [10, 20] = 20 := by
    rw [specNearestRank, if_neg (by simp)]
    norm_num [sortQ, List.insertionSort, List.orderedInsert]
  exact ⟨h1, h2, by rw [h1, h2]; norm_num⟩

/-- C3 (amended): the shared `p95` closure sorts the samples and returns the
element at 0-indexed rank `round(0.95 * (n - 1))` where `round` is Python's
round-half-to-even (so 31 samples select rank 28, where round-half-up would
select 29), and the result is always one of the samples; p50 is
`statistics.median`: the middle element of the sorted samples for odd length
(hence a sample), the mean of the two middle elements for even length; the
empty sample list reports 0 for both; p50 of `[10,20,30,40,50]` is 30 and
p95 of it is 50. -/
theorem c3_percentiles_amended :
    (p50 ([] : List ℚ) = 0 ∧ p95 ([] : List ℚ) = 0) ∧
    (p50 [10, 20, 30, 40, 50] = 30 ∧ p95 [10, 20, 30, 40, 50] = 50) ∧
    (∀ xs : List ℚ, xs ≠ [] → p95 xs ∈ xs) ∧
    (∀ xs : List ℚ, xs ≠ [] → xs.length % 2 = 1 →
      p50 xs = (sortQ xs).getD (xs.length / 2) 0 ∧ p50 xs ∈ xs) ∧
    (∀ xs : List ℚ, xs ≠ [] → xs.length % 2 = 0 →
      p50 xs = ((sortQ xs).getD (xs.length / 2 - 1) 0 + (sortQ xs).getD (xs.length / 2) 0) / 2) ∧
    (p95 (qRange 31) = 28 ∧ specNearestRank (19 / 20) (qRange 31) = 29) := by
  refine ⟨⟨rfl, rfl⟩, ⟨?_, ?_⟩, p95_mem, p50_odd, p50_even, ?_, ?_⟩
  · rw [p50, if_neg (by simp)]
    norm_num [median, sortQ, List.insertionSort, List.orderedInsert]
  · rw [p95, if_neg (by simp)]
    norm_num [pyRound, sortQ, List.insertionSort, List.orderedInsert]
    rfl
  · rw [p95, if_neg (by simp [qRange]; exact ⟨0, by norm_num⟩)]
    norm_num [pyRound, sortQ, qRange, List.insertionSort, List.orderedInsert, List.range_succ]
    rfl
  · rw [specNearestRank, if_neg (by simp [qRange]; exact ⟨0, by norm_num⟩)]
    norm_num [sortQ, qRange, List.insertionSort, List.orderedInsert, List.range_succ]
    rfl

/-- C3 witness: the amended percentile facts applied to concrete samples. -/
theorem c3_witness :
    (([10, 20, 30] : List ℚ) ≠ [] ∧ ([10, 20, 30] : List ℚ).length % 2 = 1 ∧
      p95 ([10, 20, 30] : List ℚ) ∈ ([10, 20, 30] : List ℚ)) ∧
    (p50 ([10, 20, 30] : List ℚ) = (sortQ [10, 20, 30]).getD (([10, 20, 30] : List ℚ).length / 2) 0 ∧
      p50 ([10, 20, 30] : List ℚ) ∈ ([10, 20, 30] : List ℚ)) := by
  have hne : ([10, 20, 30] : List ℚ) ≠ [] := by simp
  have hodd : ([10, 20, 30] : List ℚ).length % 2 = 1 := by norm_num
  exact ⟨⟨hne, hodd, c3_percentiles_amended.2.2.1 _ hne⟩,
    c3_percentiles_amended.2.2.2.1 _ hne hodd⟩

/-! ## Concurrent-orders scenario: naive (Cassandra) and atomic (MongoDB) adapters

Small-step interleaving models of `ConcurrentOrdersCassandra._worker` and
`ConcurrentOrdersMongo._worker`, operating concurrently on the single hot-SKU
inventory row.  The state carries the stored `available` value, the number of
orders whose status is `PAID`, and each worker's local phase.

Cassandra (`naive read-modify-write`): a worker first reads `available` into
a local variable (`_get_available`), then — if the read value was at least
1 — unconditionally writes back `read value - 1` (`_set_available`), then
inserts a CAPTURED payment and marks its order PAID.  The read and the write
are separate steps, so lost updates between workers are possible.

MongoDB (`atomic conditional update`): the reservation is one atomic
`find_one_and_update({sku, available: {$gte: 1}}, {$inc: {available: -1}})`
step; marking the order PAID is a later separate step.

Both workers wrap the body in `except Exception`, so a worker can abandon an
iteration at any point without touching the inventory (the `fail` step). -/

/-- Local phase of a Cassandra concurrent-orders worker. -/
inductive CPhase
  | idle
  | haveRead (v : Int)
  | reserved
  deriving DecidableEq

/-- Shared state: stored `available`, count of PAID orders, worker phases. -/
structure CassState where
  avail : Int
  paid : ℕ
  w : ℕ → CPhase

/-- One interleaved step of some Cassandra worker `i`. -/
inductive CStep : CassState → CassState → Prop
  | read (s : CassState) (i : ℕ) (h : s.w i = .idle) :
      CStep s ⟨s.avail, s.paid, Function.update s.w i (.haveRead s.avail)⟩
  | decOk (s : CassState) (i : ℕ) (v : Int) (h : s.w i = .haveRead v) (hv : 1 ≤ v) :
      CStep s ⟨v - 1, s.paid, Function.update s.w i .reserved⟩
  | decOOS (s : CassState) (i : ℕ) (v : Int) (h : s.w i = .haveRead v) (hv : v < 1) :
      CStep s ⟨s.avail, s.paid, Function.update s.w i .idle⟩
  | payOk (s : CassState) (i : ℕ) (h : s.w i = .reserved) :
      CStep s ⟨s.avail, s.paid + 1, Function.update s.w i .idle⟩
  | fail (s : CassState) (i : ℕ) :
      CStep s ⟨s.avail, s.paid, Function.update s.w i .idle⟩

/-- State seeded by `ConcurrentOrdersCassandra.setup`. -/
def cassInit (stock : Int) : CassState := ⟨stock, 0, fun _ => .idle⟩

/-- States reachable by interleaving Cassandra worker steps from setup. -/
def CassReach (stock : Int) (s : CassState) : Prop :=
  Relation.ReflTransGen CStep (cassInit stock) s

/-- Local phase of a Mongo concurrent-orders worker. -/
inductive MPhase
  | idle
  | reserved
  deriving DecidableEq

/-- Shared state for the Mongo adapter. -/
structure MongoState where
  avail : Int
  paid : ℕ
  w : ℕ → MPhase

/-- One interleaved step of some Mongo worker `i`:
`find_one_and_update` is a single atomic guarded decrement. -/
inductive MStep : MongoState → MongoState → Prop
  | reserveOk (s : MongoState) (i : ℕ) (h : s.w i = .idle) (hv : 1 ≤ s.avail) :
      MStep s ⟨s.avail - 1, s.paid, Function.update s.w i .reserved⟩
  | reserveOOS (s : MongoState) (i : ℕ) (h : s.w i = .idle) (hv : s.avail < 1) :
      MStep s ⟨s.avail, s.paid, Function.update s.w i .idle⟩
  | payOk (s : MongoState) (i : ℕ) (h : s.w i = .reserved) :
      MStep s ⟨s.avail, s.paid + 1, Function.update s.w i .idle⟩
  | fail (s : MongoState) (i : ℕ) :
      MStep s ⟨s.avail, s.paid, Function.update s.w i .idle⟩

/-- State seeded by `ConcurrentOrdersMongo.setup`. -/
def mongoInit (stock : Int) : MongoState := ⟨stock, 0, fun _ => .idle⟩

/-- States reachable by interleaving Mongo worker steps from setup. -/
def MongoReach (stock : Int) (s : MongoState) : Prop :=
  Relation.ReflTransGen MStep (mongoInit stock) s

/-- The `oversell` flag computed at the end of `run()`:
`oversell = (avail < 0) or (paid > self.initial_stock)`. -/
def oversellFlag (stock avail : Int) (paid : ℕ) : Bool :=
  decide (avail < 0) || decide (stock < (paid : Int))

theorem cass_avail_nonneg (stock : Int) (h0 : 0 ≤ stock) (s : CassState)
    (h : CassReach stock s) : 0 ≤ s.avail := by
  induction h with
  | refl => exact h0
  | tail _ step ih =>
    cases step with
    | read i h => exact ih
    | decOk i v h hv => exact sub_nonneg.mpr hv
    | decOOS i v h hv => exact ih
    | payOk i h => exact ih
    | fail i => exact ih

theorem mongo_avail_nonneg (stock : Int) (h0 : 0 ≤ stock) (s : MongoState)
    (h : MongoReach stock s) : 0 ≤ s.avail := by
  induction h with
  | refl => exact h0
  | tail _ step ih =>
    cases step with
    | reserveOk i h hv => exact sub_nonneg.mpr hv
    | reserveOOS i h hv => exact ih
    | payOk i h => exact ih
    | fail i => exact ih

/-- C1: for the naive (Cassandra) and atomic-but-not-transactional (MongoDB)
concurrent-orders adapters, in every state reachable from setup with
`initial_stock ≥ 0` — in particular in the final state `run()` reads after
joining the workers — the computed `oversell_event` flag is `true` iff the
count of PAID orders exceeds `initial_stock` (both directions: the stored
`available` can never become negative under either adapter, so the flag's
`avail < 0` disjunct never fires on its own). -/
theorem c1_oversell_iff_paid_exceeds (stock : Int) (h0 : 0 ≤ stock) :
    (∀ s : CassState, CassReach stock s →
      (oversellFlag stock s.avail s.paid = true ↔ stock < (s.paid : Int))) ∧
    (∀ s : MongoState, MongoReach stock s →
      (oversellFlag stock s.avail s.paid = true ↔ stock < (s.paid : Int))) := by
  constructor
  · intro s hs
    have hav := cass_avail_nonneg stock h0 s hs
    simp only [oversellFlag, Bool.or_eq_true, decide_eq_true_eq]
    omega
  · intro s hs
    have hav := mongo_avail_nonneg stock h0 s hs
    simp only [oversellFlag, Bool.or_eq_true, decide_eq_true_eq]
    omega

/-- C1 witness: the oversell biconditional at a concrete stock and state. -/
theorem c1_witness :
    (0 : Int) ≤ 2 ∧
    (oversellFlag 2 (cassInit 2).avail (cassInit 2).paid = true ↔
      (2 : Int) < ((cassInit 2).paid : Int)) ∧
    (oversellFlag 2 (mongoInit 2).avail (mongoInit 2).paid = true ↔
      (2 : Int) < ((mongoInit 2).paid : Int)) :=
  ⟨by norm_num,
    (c1_oversell_iff_paid_exceeds 2 (by norm_num)).1 _ Relation.ReflTransGen.refl,
    (c1_oversell_iff_paid_exceeds 2 (by norm_num)).2 _ Relation.ReflTransGen.refl⟩

/-! ## Concurrent-orders scenario: strict optimistic-retry Postgres adapter

`ConcurrentOrdersPostgres._buy_one` runs inside a SERIALIZABLE transaction:
insert a PENDING order, insert its order item, conditionally decrement
`UPDATE inventory SET qty_on_hand = qty_on_hand - 1 WHERE ... qty_on_hand >= 1`;
if no row was updated mark the order CANCELLED and return False, otherwise
insert a CAPTURED payment, mark the order PAID and return True.

Committed SERIALIZABLE transactions are equivalent to some serial execution,
so the run is modelled as a sequence of atomic `buyOne` applications
(`PgStep.commit`) interleaved with rolled-back transactions that leave the
database unchanged (`PgStep.abort`). -/

/-- Order lifecycle status (`status IN ('PENDING','PAID','CANCELLED')`). -/
inductive OrderSt
  | pending
  | paid
  | cancelled
  deriving DecidableEq

/-- Payment status (`status IN ('CAPTURED','REFUNDED')`). -/
inductive PaySt
  | captured
  | refunded
  deriving DecidableEq

/-- The Postgres shop database restricted to what `_buy_one` touches. -/
structure PgDb where
  qty : Int
  orders : List OrderSt
  payments : List PaySt
  deriving DecidableEq

/-- Count of orders whose status is PAID
(`SELECT COUNT(*) FROM orders WHERE status='PAID'`). -/
def paidCount : List OrderSt → ℕ
  | [] => 0
  | o :: rest => (if o = .paid then 1 else 0) + paidCount rest

/-- `ConcurrentOrdersPostgres._buy_one` as one serialized transaction body. -/
def buyOne (db : PgDb) : PgDb × Bool :=
  let orders1 := db.orders ++ [OrderSt.pending]
  let oid := db.orders.length
  if 1 ≤ db.qty then
    (⟨db.qty - 1, orders1.set oid OrderSt.paid, db.payments ++ [PaySt.captured]⟩, true)
  else
    (⟨db.qty, orders1.set oid OrderSt.cancelled, db.payments⟩, false)

/-- A step of the strict adapter: a committed transaction applies `buyOne`
atomically; a transaction that hit a serialization failure is rolled back
and leaves the database unchanged. -/
inductive PgStep : PgDb → PgDb → Prop
  | commit (db : PgDb) : PgStep db (buyOne db).1
  | abort (db : PgDb) : PgStep db db

/-- Database seeded by `ConcurrentOrdersPostgres.setup`. -/
def pgInit (stock : Int) : PgDb := ⟨stock, [], []⟩

/-- Databases reachable from setup under the strict adapter. -/
def PgReach (stock : Int) (db : PgDb) : Prop :=
  Relation.ReflTransGen PgStep (pgInit stock) db

theorem set_length_append {α : Type} (l : List α) (x y : α) :
    (l ++ [x]).set l.length y = l ++ [y] := by
  induction l with
  | nil => rfl
  | cons a t ih => simp [List.set, ih]

theorem paidCount_append (l1 l2 : List OrderSt) :
    paidCount (l1 ++ l2) = paidCount l1 + paidCount l2 := by
  induction l1 with
  | nil => simp [paidCount]
  | cons a t ih => simp [paidCount, ih]; omega

theorem buyOne_pos (db : PgDb) (hq : 1 ≤ db.qty) :
    (buyOne db).1 = ⟨db.qty - 1, db.orders ++ [OrderSt.paid], db.payments ++ [PaySt.captured]⟩ := by
  simp only [buyOne]
  rw [if_pos hq]
  simp [set_length_append]

theorem buyOne_neg (db : PgDb) (hq : ¬ 1 ≤ db.qty) :
    (buyOne db).1 = ⟨db.qty, db.orders ++ [OrderSt.cancelled], db.payments⟩ := by
  simp only [buyOne]
  rw [if_neg hq]
  simp [set_length_append]

/-- C2: for the strict optimistic-retry Postgres adapter, in every state
reachable from setup with `initial_stock ≥ 0` — any number of workers, any
number of committed or aborted transactions — the inventory satisfies
`available = initial_stock - paid_orders` and `available ≥ 0`, hence the
number of PAID orders never exceeds `initial_stock`. -/
theorem c2_strict_inventory_invariant (stock : Int) (h0 : 0 ≤ stock)
    (db : PgDb) (h : PgReach stock db) :
    db.qty = stock - (paidCount db.orders : Int) ∧ 0 ≤ db.qty ∧
      (paidCount db.orders : Int) ≤ stock := by
  have hmain : db.qty = stock - (paidCount db.orders : Int) ∧ 0 ≤ db.qty := by
    induction h with
    | refl => exact ⟨by simp [pgInit, paidCount], h0⟩
    | tail hr step ih =>
      cases step with
      | commit =>
        rename_i db
        by_cases hq : 1 ≤ db.qty
        · rw [buyOne_pos db hq]
          have hp : paidCount (db.orders ++ [OrderSt.paid]) = paidCount db.orders + 1 := by
            rw [paidCount_append]; simp [paidCount]
          refine ⟨?_, ?_⟩
          · show db.qty - 1 = stock - (paidCount (db.orders ++ [OrderSt.paid]) : Int)
            rw [hp]
            push_cast
            omega
          · show 0 ≤ db.qty - 1
            omega
        · rw [buyOne_neg db hq]
          have hp : paidCount (db.orders ++ [OrderSt.cancelled]) = paidCount db.orders := by
            rw [paidCount_append]; simp [paidCount]
          refine ⟨?_, ih.2⟩
          show db.qty = stock - (paidCount (db.orders ++ [OrderSt.cancelled]) : Int)
          rw [hp]
          exact ih.1
      | abort => exact ih
  exact ⟨hmain.1, hmain.2, by omega⟩

/-- C2 witness: the invariant at a concrete stock and reachable state. -/
theorem c2_witness :
    (0 : Int) ≤ 3 ∧
    ((pgInit 3).qty = 3 - (paidCount (pgInit 3).orders : Int) ∧ 0 ≤ (pgInit 3).qty ∧
      (paidCount (pgInit 3).orders : Int) ≤ 3) :=
  ⟨by norm_num, c2_strict_inventory_invariant 3 (by norm_num) _ Relation.ReflTransGen.refl⟩

/-! ## Worker loops: retry policy, error handling, latency samples

`ConcurrentOrdersPostgres._worker` runs, per loop iteration, an inner
`while True` over attempts of the transaction body.  Each attempt either

* completes with `ok : Bool` (`pg_success`/`pg_oos` incremented and one
  latency sample appended, inner loop exits),
* raises `psycopg2.errors.SerializationFailure` (`rollback`, `tries += 1`,
  `pg_aborts += 1`; if `tries > retry_max` then `pg_giveup += 1`, one latency
  sample appended and the inner loop exits, else the attempt is repeated), or
* raises any other exception — the `try` has no other handler, so the
  exception escapes the inner and outer loop and kills the worker thread
  (no counter is incremented; the adapter has no `failed` counter at all).

`pgOpAux att retryMax fuel tries` mirrors the inner loop; `att n` is the
result of the `n`-th attempt (within one operation the attempt index always
equals the number of conflicts so far).  `fuel = retryMax + 1 - tries` is an
upper bound on the remaining attempts and only pays for termination; it is
never exhausted when the loop is entered via `pgOp`.

`ConcurrentOrdersMongo._worker` and `ConcurrentOrdersCassandra._worker` have
no inner retry loop: each iteration ends in success, out-of-stock, or — via
`except Exception` — a `*_fail` counter increment with no latency sample. -/

/-- Result of one attempt of the Postgres transaction body: completed with
`ok`, raised `SerializationFailure`, or raised some other exception. -/
inductive PgAttempt
  | done (ok : Bool)
  | conflict
  | failure
  deriving DecidableEq

/-- Deltas one operation contributes to `self.metrics` / `self.lat_ms`:
`pg_success`, `pg_oos`, `pg_aborts`, `pg_giveup`, and number of appended
latency samples. -/
structure PgOpStats where
  succ : ℕ
  oos : ℕ
  aborts : ℕ
  giveup : ℕ
  lat : ℕ
  deriving DecidableEq

/-- Exit of one operation: the inner loop finished normally, or an uncaught
exception escaped it (terminating the worker thread). -/
inductive PgOpExit
  | finished (st : PgOpStats)
  | escaped (st : PgOpStats)
  deriving DecidableEq

/-- The inner `while True` attempt loop of `ConcurrentOrdersPostgres._worker`. -/
def pgOpAux (att : ℕ → PgAttempt) (retryMax : ℕ) : ℕ → ℕ → PgOpExit
  | 0, tries => .escaped ⟨0, 0, tries, 0, 0⟩
  | fuel + 1, tries =>
    match att tries with
    | .done true => .finished ⟨1, 0, tries, 0, 1⟩
    | .done false => .finished ⟨0, 1, tries, 0, 1⟩
    | .failure => .escaped ⟨0, 0, tries, 0, 0⟩
    | .conflict =>
      if retryMax < tries + 1 then .finished ⟨0, 0, tries + 1, 1, 1⟩
      else pgOpAux att retryMax fuel (tries + 1)

/-- One operation of the Postgres worker (inner loop entered with
`tries = 0`). -/
def pgOp (att : ℕ → PgAttempt) (retryMax : ℕ) : PgOpExit :=
  pgOpAux att retryMax (retryMax + 1) 0

theorem pgOpAux_all_conflict (att : ℕ → PgAttempt) (retryMax : ℕ) :
    ∀ fuel tries, tries + fuel = retryMax →
      (∀ j, tries ≤ j → j ≤ retryMax → att j = .conflict) →
      pgOpAux att retryMax (fuel + 1) tries = .finished ⟨0, 0, retryMax + 1, 1, 1⟩ := by
  intro fuel
  induction fuel with
  | zero =>
    intro tries ht hc
    have hatt := hc tries (le_refl _) (by omega)
    simp only [pgOpAux, hatt]
    rw [if_pos (by omega)]
    have : tries + 1 = retryMax + 1 := by omega
    rw [this]
  | succ f ih =>
    intro tries ht hc
    have hatt := hc tries (le_refl _) (by omega)
    simp only [pgOpAux, hatt]
    rw [if_neg (by omega)]
    exact ih (tries + 1) (by omega) (fun j h1 h2 => hc j (by omega) h2)

theorem pgOpAux_first_done (att : ℕ → PgAttempt) (retryMax : ℕ) (k : ℕ) (b : Bool)
    (hk : k ≤ retryMax) (hfirst : ∀ j, j < k → att j = .conflict)
    (hdone : att k = .done b) :
    ∀ fuel tries, tries + fuel = retryMax + 1 → tries ≤ k →
      pgOpAux att retryMax fuel tries =
        .finished ⟨if b then 1 else 0, if b then 0 else 1, k, 0, 1⟩ := by
  intro fuel
  induction fuel with
  | zero => intro tries ht hle; omega
  | succ f ih =>
    intro tries ht hle
    by_cases htk : tries = k
    · subst htk
      cases b <;> simp [pgOpAux, hdone]
    · have hconf := hfirst tries (by omega)
      simp only [pgOpAux, hconf]
      rw [if_neg (by omega)]
      exact ih (tries + 1) (by omega) (by omega)

theorem pgOpAux_no_failure (att : ℕ → PgAttempt) (retryMax : ℕ)
    (hnf : ∀ j, j ≤ retryMax → att j ≠ .failure) :
    ∀ fuel tries, tries + fuel = retryMax →
      ∃ st, pgOpAux att retryMax (fuel + 1) tries = .finished st := by
  intro fuel
  induction fuel with
  | zero =>
    intro tries ht
    cases hatt : att tries with
    | done ok =>
      cases ok <;> · simp only [pgOpAux, hatt]; exact ⟨_, rfl⟩
    | conflict =>
      simp only [pgOpAux, hatt]
      rw [if_pos (by omega)]
      exact ⟨_, rfl⟩
    | failure => exact absurd hatt (hnf tries (by omega))
  | succ f ih =>
    intro tries ht
    cases hatt : att tries with
    | done ok =>
      cases ok <;> · simp only [pgOpAux, hatt]; exact ⟨_, rfl⟩
    | conflict =>
      simp only [pgOpAux, hatt]
      rw [if_neg (by omega)]
      exact ih (tries + 1) (by omega)
    | failure => exact absurd hatt (hnf tries (by omega))

theorem pgOpAux_agree (att att' : ℕ → PgAttempt) (retryMax : ℕ)
    (hag : ∀ j, j ≤ retryMax → att j = att' j) :
    ∀ fuel tries, tries + fuel = retryMax + 1 →
      pgOpAux att retryMax fuel tries = pgOpAux att' retryMax fuel tries := by
  intro fuel
  induction fuel with
  | zero => intro tries ht; rfl
  | succ f ih =>
    intro tries ht
    have hatt : att tries = att' tries := hag tries (by omega)
    cases h : att' tries with
    | done ok => cases ok <;> simp only [pgOpAux, hatt, h]
    | failure => simp only [pgOpAux, hatt, h]
    | conflict =>
      simp only [pgOpAux, hatt, h]
      by_cases hc : retryMax < tries + 1
      · rw [if_pos hc, if_pos hc]
      · rw [if_neg hc, if_neg hc]
        exact ih (tries + 1) (by omega)

/-- C6: in the optimistic-retry Postgres adapter a serialization conflict is
handled entirely inside the operation: (a) if the first `retry_max + 1`
attempts all conflict, the operation finishes having incremented the abort
counter once per conflict (`retry_max + 1` times) and the gave-up counter
exactly once; (b) if the first non-conflict attempt `k ≤ retry_max`
completes with `ok`, the operation finishes with `k` abort increments, no
gave-up, and the success/out-of-stock counter incremented; (c) if no attempt
raises a non-retriable error, the operation always finishes normally —
a serialization conflict never escapes the operation; (d) the loop consults
at most the first `retry_max + 1` attempts, i.e. the operation is retried at
most `retry_max` times. -/
theorem c6_retry_bounded (att att' : ℕ → PgAttempt) (retryMax : ℕ) :
    ((∀ j, j ≤ retryMax → att j = .conflict) →
      pgOp att retryMax = .finished ⟨0, 0, retryMax + 1, 1, 1⟩) ∧
    (∀ k b, k ≤ retryMax → (∀ j, j < k → att j = .conflict) → att k = .done b →
      pgOp att retryMax = .finished ⟨if b then 1 else 0, if b then 0 else 1, k, 0, 1⟩) ∧
    ((∀ j, j ≤ retryMax → att j ≠ .failure) →
      ∃ st, pgOp att retryMax = .finished st) ∧
    ((∀ j, j ≤ retryMax → att j = att' j) →
      pgOp att retryMax = pgOp att' retryMax) := by
  refine ⟨?_, ?_, ?_, ?_⟩
  · intro hc
    exact pgOpAux_all_conflict att retryMax retryMax 0 (by omega) (fun j _ => hc j)
  · intro k b hk hfirst hdone
    exact pgOpAux_first_done att retryMax k b hk hfirst hdone (retryMax + 1) 0 (by omega) (by omega)
  · intro hnf
    exact pgOpAux_no_failure att retryMax hnf retryMax 0 (by omega)
  · intro hag
    exact pgOpAux_agree att att' retryMax hag (retryMax + 1) 0 (by omega)

/-- C6 witness: the retry policy at concrete attempt streams, `retry_max = 2`:
three conflicts exhaust the budget and give up once; a conflict followed by a
success finishes with one abort. -/
theorem c6_witness :
    pgOp (fun _ => PgAttempt.conflict) 2 = .finished ⟨0, 0, 3, 1, 1⟩ ∧
    pgOp (fun j => if j < 1 then PgAttempt.conflict else PgAttempt.done true) 2 =
      .finished ⟨1, 0, 1, 0, 1⟩ ∧
    (∃ st, pgOp (fun j => if j < 1 then PgAttempt.conflict else PgAttempt.done true) 2 =
      .finished st) := by
  have h1 := (c6_retry_bounded (fun _ => PgAttempt.conflict) (fun _ => PgAttempt.conflict) 2).1
    (fun j _ => rfl)
  have h2 := (c6_retry_bounded
    (fun j => if j < 1 then PgAttempt.conflict else PgAttempt.done true)
    (fun _ => PgAttempt.conflict) 2).2.1 1 true (by omega)
    (fun j hj => by simp [hj]) (by simp)
  exact ⟨h1, by simpa using h2, ⟨_, by simpa using h2⟩⟩

/-- Result of one loop iteration's backend interaction in the Mongo or
Cassandra concurrent-orders worker: reservation succeeded, out of stock, or
some backend exception was raised. -/
inductive McOutcome
  | ok
  | oos
  | err
  deriving DecidableEq

/-- The shared counters and latency list of a Mongo/Cassandra adapter,
reduced to sizes: `*_success`, `*_oos`, `*_fail` and `len(self.lat_ms)`. -/
structure McMetrics where
  succ : ℕ
  oos : ℕ
  fail : ℕ
  lat : ℕ
  deriving DecidableEq

/-- One iteration of `ConcurrentOrdersMongo._worker`: success and
out-of-stock append one latency sample under the mutex together with their
counter; `except Exception` increments `mongo_fail` and appends no sample. -/
def mongoIter (m : McMetrics) : McOutcome → McMetrics
  | .ok => ⟨m.succ + 1, m.oos, m.fail, m.lat + 1⟩
  | .oos => ⟨m.succ, m.oos + 1, m.fail, m.lat + 1⟩
  | .err => ⟨m.succ, m.oos, m.fail + 1, m.lat⟩

/-- A Mongo worker's whole loop over the iteration outcomes it encounters. -/
def mongoWorker (os : List McOutcome) : McMetrics :=
  os.foldl mongoIter ⟨0, 0, 0, 0⟩

/-- One iteration of `ConcurrentOrdersCassandra._worker` (same shape:
`cass_success`/`cass_oos` plus a sample, `except Exception` → `cass_fail`). -/
def cassIter (m : McMetrics) : McOutcome → McMetrics
  | .ok => ⟨m.succ + 1, m.oos, m.fail, m.lat + 1⟩
  | .oos => ⟨m.succ, m.oos + 1, m.fail, m.lat + 1⟩
  | .err => ⟨m.succ, m.oos, m.fail + 1, m.lat⟩

/-- A Cassandra worker's whole loop. -/
def cassWorker (os : List McOutcome) : McMetrics :=
  os.foldl cassIter ⟨0, 0, 0, 0⟩

/-- Number of `err` outcomes in an outcome list. -/
def errCount : List McOutcome → ℕ
  | [] => 0
  | o :: rest => (if o = .err then 1 else 0) + errCount rest

theorem mongoWorker_counts_general (os : List McOutcome) :
    ∀ m : McMetrics, (os.foldl mongoIter m).fail = m.fail + errCount os ∧
      (os.foldl mongoIter m).succ + (os.foldl mongoIter m).oos + (os.foldl mongoIter m).fail =
        m.succ + m.oos + m.fail + os.length ∧
      (os.foldl mongoIter m).lat =
        m.lat + (os.length - errCount os) := by
  induction os with
  | nil => intro m; simp [errCount]
  | cons o rest ih =>
    intro m
    have hrec := ih (mongoIter m o)
    have hcnt : errCount (o :: rest) = (if o = .err then 1 else 0) + errCount rest := rfl
    have hle : errCount rest ≤ rest.length := by
      clear hrec hcnt ih
      induction rest with
      | nil => simp [errCount]
      | cons a t iht =>
        simp only [errCount, List.length_cons]
        split <;> omega
    cases o <;>
      simp only [List.foldl_cons, mongoIter, hcnt, List.length_cons] at hrec ⊢ <;>
      · refine ⟨?_, ?_, ?_⟩ <;> simp [hrec.1, hrec.2.1, hrec.2.2] <;> omega

theorem pgOpAux_first_failure (att : ℕ → PgAttempt) (retryMax : ℕ) (k : ℕ)
    (hk : k ≤ retryMax) (hfirst : ∀ j, j < k → att j = .conflict)
    (hfail : att k = .failure) :
    ∀ fuel tries, tries + fuel = retryMax + 1 → tries ≤ k →
      pgOpAux att retryMax fuel tries = .escaped ⟨0, 0, k, 0, 0⟩ := by
  intro fuel
  induction fuel with
  | zero => intro tries ht hle; omega
  | succ f ih =>
    intro tries ht hle
    by_cases htk : tries = k
    · subst htk
      simp only [pgOpAux, hfail]
    · have hconf := hfirst tries (by omega)
      simp only [pgOpAux, hconf]
      rw [if_neg (by omega)]
      exact ih (tries + 1) (by omega) (by omega)

theorem cassIter_eq_mongoIter : cassIter = mongoIter := rfl

theorem cassWorker_eq_mongoWorker (os : List McOutcome) :
    cassWorker os = mongoWorker os := by
  simp [cassWorker, mongoWorker, cassIter_eq_mongoIter]

/-- C7 counterexample: in the Postgres concurrent-orders worker, a backend
exception other than a serialization conflict on the very first attempt is
not caught by any handler — the operation exits via `escaped` (the exception
propagates out of the worker loop and terminates the worker thread) and no
counter of any kind is incremented, contradicting the claim that every
adapter catches such exceptions, counts them as failed, and keeps looping. -/
theorem c7_counterexample :
    pgOp (fun _ => PgAttempt.failure) 5 = .escaped ⟨0, 0, 0, 0, 0⟩ ∧
      pgOp (fun _ => PgAttempt.failure) 5 ≠ .finished ⟨0, 0, 0, 0, 0⟩ := by
  constructor
  · rfl
  · intro h
    simp [pgOp, pgOpAux] at h

/-- C7 (amended): the Mongo and Cassandra concurrent-orders workers catch
every backend exception inside the loop iteration (`except Exception`),
count it in their `fail` counter, and keep looping until the deadline —
every iteration is counted and no exception ends the worker; the Postgres
concurrent-orders worker, however, catches only `SerializationFailure`: if
no attempt raises another exception its operation always finishes normally,
but any other backend exception — whether on the operation's first attempt
or after any number `k ≤ retry_max` of serialization conflicts — escapes
the operation (and hence the worker loop), terminating that worker with
only the `k` abort increments recorded: the Postgres adapter has no failed
counter at all. -/
theorem c7_error_handling_amended (os : List McOutcome) (att : ℕ → PgAttempt)
    (retryMax : ℕ) :
    ((mongoWorker os).fail = errCount os ∧
      (mongoWorker os).succ + (mongoWorker os).oos + (mongoWorker os).fail = os.length) ∧
    ((cassWorker os).fail = errCount os ∧
      (cassWorker os).succ + (cassWorker os).oos + (cassWorker os).fail = os.length) ∧
    ((∀ j, j ≤ retryMax → att j ≠ .failure) → ∃ st, pgOp att retryMax = .finished st) ∧
    (∀ k, k ≤ retryMax → (∀ j, j < k → att j = .conflict) → att k = .failure →
      pgOp att retryMax = .escaped ⟨0, 0, k, 0, 0⟩) := by
  have hm := mongoWorker_counts_general os ⟨0, 0, 0, 0⟩
  refine ⟨⟨by simpa [mongoWorker] using hm.1, by simpa [mongoWorker] using hm.2.1⟩, ?_, ?_, ?_⟩
  · rw [cassWorker_eq_mongoWorker]
    exact ⟨by simpa [mongoWorker] using hm.1, by simpa [mongoWorker] using hm.2.1⟩
  · intro hnf
    exact pgOpAux_no_failure att retryMax hnf retryMax 0 (by omega)
  · intro k hk hfirst hfail
    exact pgOpAux_first_failure att retryMax k hk hfirst hfail (retryMax + 1) 0
      (by omega) (by omega)

/-- C7 witness: the amended error-handling facts at a concrete outcome list
and attempt streams, including a backend exception raised only after one
serialization conflict: it escapes with exactly that one abort recorded. -/
theorem c7_witness :
    ((mongoWorker [.ok, .err, .oos, .err]).fail = errCount [.ok, .err, .oos, .err] ∧
      (mongoWorker [.ok, .err, .oos, .err]).succ + (mongoWorker [.ok, .err, .oos, .err]).oos +
        (mongoWorker [.ok, .err, .oos, .err]).fail = 4) ∧
    (∀ j, j ≤ 5 → (fun _ => PgAttempt.done true) j ≠ PgAttempt.failure) ∧
    (∃ st, pgOp (fun _ => PgAttempt.done true) 5 = .finished st) ∧
    ((1 : ℕ) ≤ 5 ∧
      (fun j => if j < 1 then PgAttempt.conflict else PgAttempt.failure) 1 =
        PgAttempt.failure ∧
      pgOp (fun j => if j < 1 then PgAttempt.conflict else PgAttempt.failure) 5 =
        .escaped ⟨0, 0, 1, 0, 0⟩) := by
  have h1 := (c7_error_handling_amended [.ok, .err, .oos, .err]
    (fun _ => PgAttempt.done true) 5).1
  have h3 := (c7_error_handling_amended [.ok, .err, .oos, .err]
    (fun _ => PgAttempt.done true) 5).2.2.1 (fun j _ => by simp)
  have h4 := (c7_error_handling_amended [.ok, .err, .oos, .err]
    (fun j => if j < 1 then PgAttempt.conflict else PgAttempt.failure) 5).2.2.2 1
    (by omega) (fun j hj => by simp [hj]) (by simp)
  exact ⟨⟨h1.1, by simpa using h1.2⟩, fun j _ => by simp, h3, ⟨by omega, by simp, h4⟩⟩

/-- The counter/sample deltas an operation exit carries, whether the inner
loop finished or the exception escaped. -/
def PgOpExit.stats : PgOpExit → PgOpStats
  | .finished st => st
  | .escaped st => st

/-- Componentwise accumulation of per-operation deltas into the shared
metrics (each delta is applied under `self.mx`). -/
def pgAccum (a b : PgOpStats) : PgOpStats :=
  ⟨a.succ + b.succ, a.oos + b.oos, a.aborts + b.aborts, a.giveup + b.giveup, a.lat + b.lat⟩

/-- A Postgres worker's loop: one operation per iteration; the worker stops
contributing once an operation escapes (the thread dies). -/
def pgWorker (retryMax : ℕ) : List (ℕ → PgAttempt) → PgOpStats
  | [] => ⟨0, 0, 0, 0, 0⟩
  | a :: rest =>
    match pgOp a retryMax with
    | .finished st => pgAccum st (pgWorker retryMax rest)
    | .escaped st => st

theorem pgOpAux_lat_eq (att : ℕ → PgAttempt) (retryMax : ℕ) :
    ∀ fuel tries,
      (pgOpAux att retryMax fuel tries).stats.lat =
        (pgOpAux att retryMax fuel tries).stats.succ +
        (pgOpAux att retryMax fuel tries).stats.oos +
        (pgOpAux att retryMax fuel tries).stats.giveup := by
  intro fuel
  induction fuel with
  | zero => intro tries; rfl
  | succ f ih =>
    intro tries
    cases hatt : att tries with
    | done ok => cases ok <;> simp [pgOpAux, hatt, PgOpExit.stats]
    | failure => simp [pgOpAux, hatt, PgOpExit.stats]
    | conflict =>
      by_cases hc : retryMax < tries + 1
      · simp [pgOpAux, hatt, if_pos hc, PgOpExit.stats]
      · simp only [pgOpAux, hatt, if_neg hc]
        exact ih (tries + 1)

theorem pgOp_lat_eq (att : ℕ → PgAttempt) (retryMax : ℕ) :
    (pgOp att retryMax).stats.lat =
      (pgOp att retryMax).stats.succ + (pgOp att retryMax).stats.oos +
        (pgOp att retryMax).stats.giveup :=
  pgOpAux_lat_eq att retryMax (retryMax + 1) 0

theorem errCount_le_length (os : List McOutcome) : errCount os ≤ os.length := by
  induction os with
  | nil => simp [errCount]
  | cons a t iht =>
    simp only [errCount, List.length_cons]
    split <;> omega

theorem mongoWorker_lat_eq (os : List McOutcome) :
    (mongoWorker os).lat = (mongoWorker os).succ + (mongoWorker os).oos := by
  have hm := mongoWorker_counts_general os ⟨0, 0, 0, 0⟩
  have hle := errCount_le_length os
  have h1 := hm.1
  have h2 := hm.2.1
  have h3 := hm.2.2
  simp only [mongoWorker] at h1 h2 h3 ⊢
  omega

theorem pgWorker_lat_eq (retryMax : ℕ) (ops : List (ℕ → PgAttempt)) :
    (pgWorker retryMax ops).lat =
      (pgWorker retryMax ops).succ + (pgWorker retryMax ops).oos +
        (pgWorker retryMax ops).giveup := by
  induction ops with
  | nil => rfl
  | cons a rest ih =>
    have hop := pgOp_lat_eq a retryMax
    simp only [pgWorker]
    cases hexit : pgOp a retryMax with
    | finished st =>
      rw [hexit] at hop
      simp only [PgOpExit.stats] at hop
      simp [pgAccum]
      omega
    | escaped st =>
      rw [hexit] at hop
      simpa [PgOpExit.stats] using hop

/-- C9: every completed non-failed operation appends exactly one latency
sample together with its outcome counter: across any Mongo or Cassandra
worker loop, the latency list length equals `success + out_of_stock` (failed
iterations append nothing); for the Postgres adapter every single operation
— and hence any worker loop accumulating operations — satisfies
`len(lat_ms) = success + out_of_stock + gave_up`. -/
theorem c9_latency_sample_invariant (os : List McOutcome)
    (att : ℕ → PgAttempt) (retryMax : ℕ) (ops : List (ℕ → PgAttempt)) :
    ((mongoWorker os).lat = (mongoWorker os).succ + (mongoWorker os).oos) ∧
    ((cassWorker os).lat = (cassWorker os).succ + (cassWorker os).oos) ∧
    ((pgOp att retryMax).stats.lat =
      (pgOp att retryMax).stats.succ + (pgOp att retryMax).stats.oos +
        (pgOp att retryMax).stats.giveup) ∧
    ((pgWorker retryMax ops).lat =
      (pgWorker retryMax ops).succ + (pgWorker retryMax ops).oos +
        (pgWorker retryMax ops).giveup) :=
  ⟨mongoWorker_lat_eq os,
    by rw [cassWorker_eq_mongoWorker]; exact mongoWorker_lat_eq os,
    pgOp_lat_eq att retryMax,
    pgWorker_lat_eq retryMax ops⟩

/-! ## Post-run verifier (`kpis`)

All three rollback adapters implement the same `kpis()` scan of the final
state: an inventory row counts as an oversell violation iff
`available < 0 or available > initial`; a payment whose status is CAPTURED
counts as an orphan iff the order it links to is missing or not PAID.
None of the three implementations counts PAID orders per SKU.

`specOversellCount` is the refinement-side definition written from the
spec's words ("oversell is detected iff final available < 0 OR final
available > initial OR count(PAID orders referencing this key) exceeds
initial"), kept separate so it can be compared with the code's scan. -/

/-- An inventory row as `kpis` reads it: `initial` and final `available`. -/
structure InvRow where
  initial : Int
  available : Int
  deriving DecidableEq

/-- A payment row as `kpis` reads it: linked order id and status. -/
structure PayRow where
  order_id : ℕ
  status : PaySt
  deriving DecidableEq

/-- The per-row oversell test of `kpis`:
`available < 0 or available > initial`. -/
def oversellRowB (r : InvRow) : Bool :=
  decide (r.available < 0) || decide (r.initial < r.available)

/-- `kpis` oversell count over the final inventory rows. -/
def kpisOversell (inv : List InvRow) : ℕ :=
  (inv.filter oversellRowB).length

/-- The per-payment orphan test of `kpis`: status CAPTURED and the linked
order is missing or its status is not PAID (lookup by order id). -/
def orphanB (orders : List (ℕ × OrderSt)) (p : PayRow) : Bool :=
  p.status == PaySt.captured &&
    (match orders.find? (fun o => o.1 == p.order_id) with
     | none => true
     | some o => !(o.2 == OrderSt.paid))

/-- `kpis` orphan count over the final payments and orders. -/
def kpisOrphan (pays : List PayRow) (orders : List (ℕ × OrderSt)) : ℕ :=
  (pays.filter (orphanB orders)).length

/-- An inventory row together with its SKU, for the spec-side predicate. -/
structure SkuRow where
  sku : String
  initial : Int
  available : Int
  deriving DecidableEq

/-- An order together with the SKUs it references, for the spec-side
predicate. -/
structure SpecOrder where
  status : OrderSt
  skus : List String
  deriving DecidableEq

/-- Count of PAID orders referencing a given SKU. -/
def paidRefCount (orders : List SpecOrder) (sku : String) : ℕ :=
  (orders.filter (fun o => o.status == OrderSt.paid && o.skus.contains sku)).length

/-- Oversell count as §4.5 of the spec words it, including the third
disjunct on the number of PAID orders referencing the key. -/
def specOversellCount (rows : List SkuRow) (orders : List SpecOrder) : ℕ :=
  (rows.filter (fun r =>
    decide (r.available < 0) || decide (r.initial < r.available) ||
      decide ((r.initial : Int) < (paidRefCount orders r.sku : Int)))).length

/-- C4 counterexample: a final state with one SKU at
`initial = available = 1` and two PAID orders referencing it.  The claimed
verifier counts it as an oversell violation (third disjunct); the
implemented `kpis` scan, which only compares `available` against `0` and
`initial`, counts nothing. -/
theorem c4_counterexample :
    kpisOversell [⟨1, 1⟩] = 0 ∧
      specOversellCount [⟨"X", 1, 1⟩]
        [⟨OrderSt.paid, ["X"]⟩, ⟨OrderSt.paid, ["X"]⟩] = 1 ∧
      kpisOversell [⟨1, 1⟩] ≠ specOversellCount [⟨"X", 1, 1⟩]
        [⟨OrderSt.paid, ["X"]⟩, ⟨OrderSt.paid, ["X"]⟩] := by
  refine ⟨?_, ?_, ?_⟩ <;> decide

theorem nodup_keys_eq {l : List (ℕ × OrderSt)} (h : (l.map Prod.fst).Nodup)
    {a b : ℕ × OrderSt} (ha : a ∈ l) (hb : b ∈ l) (hab : a.1 = b.1) : a = b := by
  induction l with
  | nil => cases ha
  | cons x t ih =>
    rw [List.map_cons, List.nodup_cons] at h
    rcases List.mem_cons.mp ha with rfl | hat
    · rcases List.mem_cons.mp hb with rfl | hbt
      · rfl
      · exact absurd (hab ▸ List.mem_map_of_mem Prod.fst hbt) h.1
    · rcases List.mem_cons.mp hb with rfl | hbt
      · exact absurd (hab ▸ List.mem_map_of_mem Prod.fst hat) h.1
      · exact ih h.2 hat hbt

theorem orphanB_iff (orders : List (ℕ × OrderSt)) (hnd : (orders.map Prod.fst).Nodup)
    (p : PayRow) :
    orphanB orders p = decide (p.status = PaySt.captured ∧ (p.order_id, OrderSt.paid) ∉ orders) := by
  rw [Bool.eq_iff_iff]
  simp only [decide_eq_true_eq, orphanB, Bool.and_eq_true, beq_iff_eq]
  constructor
  · rintro ⟨hst, hrest⟩
    refine ⟨hst, ?_⟩
    intro hmem
    cases hf : orders.find? (fun o => o.1 == p.order_id) with
    | none =>
      have := List.find?_eq_none.mp hf (p.order_id, OrderSt.paid) hmem
      simp at this
    | some o =>
      have hom := List.mem_of_find?_eq_some hf
      have ho1 : o.1 = p.order_id := by
        have hkey := List.find?_some hf
        simpa using hkey
      have heq : o = (p.order_id, OrderSt.paid) :=
        nodup_keys_eq hnd hom hmem (by simpa using ho1)
      rw [hf] at hrest
      simp [heq] at hrest
  · rintro ⟨hst, hnmem⟩
    refine ⟨hst, ?_⟩
    cases hf : orders.find? (fun o => o.1 == p.order_id) with
    | none => simp
    | some o =>
      have hom := List.mem_of_find?_eq_some hf
      have ho1 : o.1 = p.order_id := by
        have hkey := List.find?_some hf
        simpa using hkey
      simp only [Bool.not_eq_true', beq_eq_false_iff_ne, ne_eq]
      intro hpaid
      apply hnmem
      have : o = (p.order_id, OrderSt.paid) := by
        cases o
        simp only at ho1 hpaid
        rw [ho1, hpaid]
      exact this ▸ hom

/-- C4 (amended): the post-run verifier counts, over the final state, an
inventory row as an oversell violation iff its `available` lies outside
`[0, initial]` (`available < 0` or `available > initial`) — the number of
PAID orders referencing the key is not consulted — and, for order lists
with unique ids, a payment as an orphan iff its status is CAPTURED and no
PAID order with its id exists (order missing or not PAID). -/
theorem c4_verifier_amended (inv : List InvRow) (pays : List PayRow)
    (orders : List (ℕ × OrderSt)) (hnd : (orders.map Prod.fst).Nodup) :
    kpisOversell inv =
      (inv.filter (fun r => decide (¬ (0 ≤ r.available ∧ r.available ≤ r.initial)))).length ∧
    kpisOrphan pays orders =
      (pays.filter (fun p =>
        decide (p.status = PaySt.captured ∧ (p.order_id, OrderSt.paid) ∉ orders))).length := by
  constructor
  · unfold kpisOversell
    congr 1
    apply List.filter_congr
    intro r _
    rw [oversellRowB, Bool.eq_iff_iff]
    simp only [Bool.or_eq_true, decide_eq_true_eq]
    omega
  · unfold kpisOrphan
    congr 1
    apply List.filter_congr
    intro p _
    exact orphanB_iff orders hnd p

/-- C4 witness: the amended verifier characterisation at a concrete final
state: one healthy row and one negative row; one captured payment whose
order is PAID, one whose order is CANCELLED, one refunded payment. -/
theorem c4_witness :
    (([(1, OrderSt.paid), (2, OrderSt.cancelled)].map Prod.fst).Nodup) ∧
    kpisOversell [⟨5, 3⟩, ⟨2, -1⟩] =
      ([⟨5, 3⟩, ⟨2, -1⟩].filter (fun r : InvRow =>
        decide (¬ (0 ≤ r.available ∧ r.available ≤ r.initial)))).length ∧
    kpisOrphan [⟨1, PaySt.captured⟩, ⟨2, PaySt.captured⟩, ⟨3, PaySt.refunded⟩]
        [(1, OrderSt.paid), (2, OrderSt.cancelled)] =
      ([⟨1, PaySt.captured⟩, ⟨2, PaySt.captured⟩, ⟨3, PaySt.refunded⟩].filter
        (fun p : PayRow => decide (p.status = PaySt.captured ∧
          (p.order_id, OrderSt.paid) ∉ [(1, OrderSt.paid), (2, OrderSt.cancelled)]))).length := by
  have hnd : (([(1, OrderSt.paid), (2, OrderSt.cancelled)] : List (ℕ × OrderSt)).map
      Prod.fst).Nodup := by decide
  have h := c4_verifier_amended [⟨5, 3⟩, ⟨2, -1⟩]
    [⟨1, PaySt.captured⟩, ⟨2, PaySt.captured⟩, ⟨3, PaySt.refunded⟩]
    [(1, OrderSt.paid), (2, OrderSt.cancelled)] hnd
  exact ⟨hnd, h.1, h.2⟩

/-! ## Rollback scenario: single-operation semantics (Mongo and Cassandra)

One iteration of `MongoRollback._worker` / `CassandraRollback._worker`, run
sequentially over the inventory state (`available` per SKU):

* insert the order PENDING, insert its items;
* decrement inventory per cart line — Mongo uses the guarded atomic
  `find_one_and_update({sku, available: {$gte: qty}}, {$inc: {available: -qty}})`
  and raises `RuntimeError("Insufficient stock")` on the first line whose
  guard fails (earlier lines stay decremented); Cassandra reads `available`
  and writes back `available - qty` unconditionally (it can go negative,
  and no insufficient-stock abort exists);
* insert the payment CAPTURED; with probability `late_fail` raise
  `RuntimeError("Late failure")`; otherwise mark the order PAID;
* `except Exception`: compensation — mark the order CANCELLED, set the
  payment REFUNDED (a no-op if no payment row exists yet), and increment
  `available` by `qty` for **every** cart line, including lines whose
  decrement never happened. -/

/-- SKU keys of the rollback scenario. -/
abbrev Sku := String

/-- Why the operation ended: committed (order PAID), aborted on the guarded
decrement of line `i`, or aborted on the injected late failure. -/
inductive RbReason
  | ok
  | insufficient (i : ℕ)
  | late
  deriving DecidableEq

/-- Final per-operation state: inventory `available` per SKU, the status of
this operation's order, and the status of its payment row if one exists. -/
structure RbSt where
  avail : Sku → Int
  order : OrderSt
  payment : Option PaySt

/-- Total quantity a cart reserves for one SKU. -/
def lineSum : List (Sku × ℕ) → Sku → Int
  | [], _ => 0
  | l :: rest, s => (if l.1 = s then (l.2 : Int) else 0) + lineSum rest s

/-- The compensation loop: `for (sku, qty, _) in lines: inc available by qty`. -/
def applyInc (f : Sku → Int) : List (Sku × ℕ) → Sku → Int
  | [] => f
  | l :: rest => applyInc (Function.update f l.1 (f l.1 + (l.2 : Int))) rest

/-- The Mongo decrement loop: guarded conditional decrements, stopping at
the first line whose guard `available >= qty` fails (returning its index). -/
def mongoDec (f : Sku → Int) : List (Sku × ℕ) → (Sku → Int) × Option ℕ
  | [] => (f, none)
  | l :: rest =>
    if (l.2 : Int) ≤ f l.1 then
      match mongoDec (Function.update f l.1 (f l.1 - (l.2 : Int))) rest with
      | (g, none) => (g, none)
      | (g, some j) => (g, some (j + 1))
    else (f, some 0)

/-- The Cassandra decrement loop: unconditional read-then-write decrements. -/
def cassDec (f : Sku → Int) : List (Sku × ℕ) → Sku → Int
  | [] => f
  | l :: rest => cassDec (Function.update f l.1 (f l.1 - (l.2 : Int))) rest

/-- One `MongoRollback._worker` iteration over the inventory state. -/
def mongoRollbackOp (avail0 : Sku → Int) (cart : List (Sku × ℕ)) (lateFail : Bool) :
    RbSt × RbReason :=
  match mongoDec avail0 cart with
  | (f, some i) => (⟨applyInc f cart, .cancelled, none⟩, .insufficient i)
  | (f, none) =>
    if lateFail then (⟨applyInc f cart, .cancelled, some .refunded⟩, .late)
    else (⟨f, .paid, some .captured⟩, .ok)

/-- One `CassandraRollback._worker` iteration over the inventory state. -/
def cassRollbackOp (avail0 : Sku → Int) (cart : List (Sku × ℕ)) (lateFail : Bool) :
    RbSt × RbReason :=
  let f := cassDec avail0 cart
  if lateFail then (⟨applyInc f cart, .cancelled, some .refunded⟩, .late)
  else (⟨f, .paid, some .captured⟩, .ok)

theorem applyInc_apply (cart : List (Sku × ℕ)) :
    ∀ (f : Sku → Int) (s : Sku), applyInc f cart s = f s + lineSum cart s := by
  induction cart with
  | nil => intro f s; simp [applyInc, lineSum]
  | cons l rest ih =>
    intro f s
    rw [applyInc, ih, lineSum]
    rcases eq_or_ne l.1 s with h | h
    · subst h
      rw [Function.update_same, if_pos rfl]
      ring
    · rw [Function.update_apply, if_neg (Ne.symm h), if_neg h]
      ring

theorem cassDec_apply (cart : List (Sku × ℕ)) :
    ∀ (f : Sku → Int) (s : Sku), cassDec f cart s = f s - lineSum cart s := by
  induction cart with
  | nil => intro f s; simp [cassDec, lineSum]
  | cons l rest ih =>
    intro f s
    rw [cassDec, ih, lineSum]
    rcases eq_or_ne l.1 s with h | h
    · subst h
      rw [Function.update_same, if_pos rfl]
      ring
    · rw [Function.update_apply, if_neg (Ne.symm h), if_neg h]
      ring

theorem mongoDec_none (cart : List (Sku × ℕ)) :
    ∀ (f g : Sku → Int), mongoDec f cart = (g, none) →
      ∀ s, g s = f s - lineSum cart s := by
  induction cart with
  | nil =>
    intro f g h s
    rw [mongoDec] at h
    cases h
    simp [lineSum]
  | cons l rest ih =>
    intro f g h s
    rw [mongoDec] at h
    by_cases hg : (l.2 : Int) ≤ f l.1
    · rw [if_pos hg] at h
      cases hrec : mongoDec (Function.update f l.1 (f l.1 - (l.2 : Int))) rest with
      | mk g' o =>
        cases o with
        | none =>
          rw [hrec] at h
          cases h
          rw [ih _ _ hrec s, lineSum]
          rcases eq_or_ne l.1 s with he | he
          · subst he
            rw [Function.update_same, if_pos rfl]
            ring
          · rw [Function.update_apply, if_neg (Ne.symm he), if_neg he]
            ring
        | some j =>
          rw [hrec] at h
          cases h
    · rw [if_neg hg] at h
      cases h

theorem mongoDec_some (cart : List (Sku × ℕ)) :
    ∀ (f g : Sku → Int) (i : ℕ), mongoDec f cart = (g, some i) →
      i < cart.length ∧ (∀ s, g s = f s - lineSum (cart.take i) s) := by
  induction cart with
  | nil =>
    intro f g i h
    rw [mongoDec] at h
    cases h
  | cons l rest ih =>
    intro f g i h
    rw [mongoDec] at h
    by_cases hg : (l.2 : Int) ≤ f l.1
    · rw [if_pos hg] at h
      cases hrec : mongoDec (Function.update f l.1 (f l.1 - (l.2 : Int))) rest with
      | mk g' o =>
        cases o with
        | none =>
          rw [hrec] at h
          cases h
        | some j =>
          rw [hrec] at h
          cases h
          have hr := ih _ _ _ hrec
          refine ⟨by simpa using Nat.succ_lt_succ hr.1, ?_⟩
          intro s
          rw [List.take_succ_cons, hr.2 s, lineSum]
          rcases eq_or_ne l.1 s with he | he
          · subst he
            rw [Function.update_same, if_pos rfl]
            ring
          · rw [Function.update_apply, if_neg (Ne.symm he), if_neg he]
            ring
    · rw [if_neg hg] at h
      cases h
      exact ⟨by simp, fun s => by simp [lineSum]⟩

theorem lineSum_append (c1 c2 : List (Sku × ℕ)) (s : Sku) :
    lineSum (c1 ++ c2) s = lineSum c1 s + lineSum c2 s := by
  induction c1 with
  | nil => simp [lineSum]
  | cons l rest ih => rw [List.cons_append, lineSum, lineSum, ih]; ring

theorem lineSum_take_drop (cart : List (Sku × ℕ)) (i : ℕ) (s : Sku) :
    lineSum (cart.take i) s + lineSum (cart.drop i) s = lineSum cart s := by
  rw [← lineSum_append, List.take_append_drop]

/-- C5: for every rollback operation that raised the injected late failure
(raised after the payment was captured, with all guarded inventory
decrements having succeeded), the compensation leaves the order CANCELLED,
the payment REFUNDED, and the inventory of every SKU restored to exactly its
pre-operation value — each cart line was re-incremented by exactly the
quantity it reserved.  Holds for both the Mongo and the Cassandra rollback
workers. -/
theorem c5_compensation_completeness (avail0 : Sku → Int) (cart : List (Sku × ℕ))
    (lf : Bool) :
    ((mongoRollbackOp avail0 cart lf).2 = RbReason.late →
      (mongoRollbackOp avail0 cart lf).1.order = OrderSt.cancelled ∧
      (mongoRollbackOp avail0 cart lf).1.payment = some PaySt.refunded ∧
      ∀ s, (mongoRollbackOp avail0 cart lf).1.avail s = avail0 s) ∧
    ((cassRollbackOp avail0 cart lf).2 = RbReason.late →
      (cassRollbackOp avail0 cart lf).1.order = OrderSt.cancelled ∧
      (cassRollbackOp avail0 cart lf).1.payment = some PaySt.refunded ∧
      ∀ s, (cassRollbackOp avail0 cart lf).1.avail s = avail0 s) := by
  constructor
  · intro h
    cases hdec : mongoDec avail0 cart with
    | mk f o =>
      cases o with
      | some i => simp [mongoRollbackOp, hdec] at h
      | none =>
        cases lf with
        | false => simp [mongoRollbackOp, hdec] at h
        | true =>
          have hf := mongoDec_none cart avail0 f hdec
          simp only [mongoRollbackOp, hdec, if_pos]
          refine ⟨trivial, trivial, ?_⟩
          intro s
          show applyInc f cart s = avail0 s
          rw [applyInc_apply, hf s]
          ring
  · intro h
    cases lf with
    | false => simp [cassRollbackOp] at h
    | true =>
      simp only [cassRollbackOp, if_pos]
      refine ⟨trivial, trivial, ?_⟩
      intro s
      show applyInc (cassDec avail0 cart) cart s = avail0 s
      rw [applyInc_apply, cassDec_apply]
      ring

/-- C5 witness: a two-line cart, plenty of stock, injected late failure:
both workers compensate back to the initial inventory. -/
theorem c5_witness :
    ((mongoRollbackOp (fun _ => 5) [("A", 1), ("B", 2)] true).2 = RbReason.late ∧
      (mongoRollbackOp (fun _ => 5) [("A", 1), ("B", 2)] true).1.order = OrderSt.cancelled ∧
      (mongoRollbackOp (fun _ => 5) [("A", 1), ("B", 2)] true).1.payment = some PaySt.refunded ∧
      (mongoRollbackOp (fun _ => 5) [("A", 1), ("B", 2)] true).1.avail "A" = 5) ∧
    ((cassRollbackOp (fun _ => 5) [("A", 1), ("B", 2)] true).2 = RbReason.late ∧
      (cassRollbackOp (fun _ => 5) [("A", 1), ("B", 2)] true).1.order = OrderSt.cancelled ∧
      (cassRollbackOp (fun _ => 5) [("A", 1), ("B", 2)] true).1.avail "B" = 5) := by
  have hm2 : (mongoRollbackOp (fun _ => 5) [("A", 1), ("B", 2)] true).2 = RbReason.late := by
    decide
  have hc2 : (cassRollbackOp (fun _ => 5) [("A", 1), ("B", 2)] true).2 = RbReason.late := by
    decide
  have h := c5_compensation_completeness (fun _ => 5) [("A", 1), ("B", 2)] true
  have hm := h.1 hm2
  have hc := h.2 hc2
  exact ⟨⟨hm2, hm.1, hm.2.1, hm.2.2 "A"⟩, ⟨hc2, hc.1, hc.2.2 "B"⟩⟩

/-- C10: when a Mongo rollback operation aborts with insufficient stock at
cart line `i` (lines before `i` decremented, line `i` and later lines not),
the compensation marks the order CANCELLED and re-increments inventory for
**every** cart line, so each SKU ends at its pre-operation value plus the
quantities of its occurrences in lines `i, i+1, ...` — a net increase that
can push `available` above `initial` in a single abort.  The Cassandra
rollback worker performs unconditional decrements and never aborts with
insufficient stock. -/
theorem c10_overincrement_comp (avail0 : Sku → Int) (cart : List (Sku × ℕ))
    (lf : Bool) (i : ℕ)
    (h : (mongoRollbackOp avail0 cart lf).2 = RbReason.insufficient i) :
    (mongoRollbackOp avail0 cart lf).1.order = OrderSt.cancelled ∧
    (mongoRollbackOp avail0 cart lf).1.payment = none ∧
    i < cart.length ∧
    (∀ s, (mongoRollbackOp avail0 cart lf).1.avail s =
      avail0 s + lineSum (cart.drop i) s) ∧
    (∀ (avail0' : Sku → Int) (cart' : List (Sku × ℕ)) (lf' : Bool) (j : ℕ),
      (cassRollbackOp avail0' cart' lf').2 ≠ RbReason.insufficient j) := by
  have hcass : ∀ (avail0' : Sku → Int) (cart' : List (Sku × ℕ)) (lf' : Bool) (j : ℕ),
      (cassRollbackOp avail0' cart' lf').2 ≠ RbReason.insufficient j := by
    intro avail0' cart' lf' j
    cases lf' <;> simp [cassRollbackOp]
  cases hdec : mongoDec avail0 cart with
  | mk f o =>
    cases o with
    | none =>
      cases lf <;> simp [mongoRollbackOp, hdec] at h
    | some i' =>
      have hi : i' = i := by
        have := h
        simp [mongoRollbackOp, hdec] at this
        exact this
      subst hi
      have hsome := mongoDec_some cart avail0 f i' hdec
      simp only [mongoRollbackOp, hdec]
      refine ⟨trivial, trivial, hsome.1, ?_, hcass⟩
      intro s
      show applyInc f cart s = avail0 s + lineSum (cart.drop i') s
      rw [applyInc_apply, hsome.2 s, ← lineSum_take_drop cart i' s]
      ring

/-- C10 witness: inventory with SKU `X` at its initial quantity 1 and SKU
`Y` exhausted at 0; the cart `[(Y,1), (X,1)]` aborts on line 0, no decrement
happens, yet the compensation increments both lines: `X` ends at 2, strictly
above its initial quantity 1. -/
theorem c10_witness :
    (mongoRollbackOp (fun s => if s = "Y" then 0 else 1) [("Y", 1), ("X", 1)] false).2 =
      RbReason.insufficient 0 ∧
    (mongoRollbackOp (fun s => if s = "Y" then 0 else 1) [("Y", 1), ("X", 1)] false).1.order =
      OrderSt.cancelled ∧
    (mongoRollbackOp (fun s => if s = "Y" then 0 else 1) [("Y", 1), ("X", 1)] false).1.avail "X" = 2 ∧
    (1 : Int) < 2 ∧
    (cassRollbackOp (fun s => if s = "Y" then 0 else 1) [("Y", 1), ("X", 1)] false).2 ≠
      RbReason.insufficient 0 := by
  have h0 : (mongoRollbackOp (fun s => if s = "Y" then 0 else 1) [("Y", 1), ("X", 1)] false).2 =
      RbReason.insufficient 0 := by decide
  have h := c10_overincrement_comp (fun s => if s = "Y" then 0 else 1) [("Y", 1), ("X", 1)]
    false 0 h0
  refine ⟨h0, h.1, ?_, by norm_num, h.2.2.2.2 _ _ false 0⟩
  rw [h.2.2.2.1 "X"]
  decide

/-! ## Setup idempotence

`ConcurrentOrdersPostgres.setup` drops the six tables if they exist,
recreates them (dropping a table drops its BIGSERIAL sequence, so ids
restart at 1), and seeds one customer, one product (id 1, the hot SKU) and
one inventory row `(product_id 1, initial_stock)`.

`setup_schema_and_seed` of the Mongo rollback benchmark drops the five
collections (falling back to `delete_many({})`), recreates them via
`ensure_collection` (create, or clear if it already exists), recreates the
indexes, and seeds `inventory_by_sku` with one document
`{sku, initial: initial_stock, available: initial_stock}` per hot SKU.

A table/collection is `Option (List row)`: `none` = absent.  Collections the
benchmark only writes during the run are kept with a unit row type. -/

/-- A customers row: BIGSERIAL id, email. -/
structure PgCustomer where
  id : ℕ
  email : String
  deriving DecidableEq

/-- A products row: BIGSERIAL id, sku, name, price. -/
structure PgProduct where
  id : ℕ
  sku : String
  name : String
  price : ℚ
  deriving DecidableEq

/-- The Postgres shop schema state as `setup` sees it. -/
structure PgShopDb where
  customers : Option (List PgCustomer)
  products : Option (List PgProduct)
  inventory : Option (List (ℕ × Int))
  orders : Option (List OrderSt)
  order_items : Option (List Unit)
  payments : Option (List Unit)
  deriving DecidableEq

/-- Drop a table if it exists (its sequence is dropped with it). -/
def dropIfExists {α : Type} (_t : Option (List α)) : Option (List α) := none

/-- `CREATE TABLE` after the drop block: the table is empty and its
BIGSERIAL sequence starts at 1. -/
def createTable {α : Type} (_t : Option (List α)) : Option (List α) := some []

/-- `ConcurrentOrdersPostgres.setup` as a state transformer. -/
def pgSetup (hotSku : String) (price : ℚ) (stock : Int) (db : PgShopDb) : PgShopDb :=
  let dropped : PgShopDb :=
    ⟨dropIfExists db.customers, dropIfExists db.products, dropIfExists db.inventory,
      dropIfExists db.orders, dropIfExists db.order_items, dropIfExists db.payments⟩
  let created : PgShopDb :=
    ⟨createTable dropped.customers, createTable dropped.products, createTable dropped.inventory,
      createTable dropped.orders, createTable dropped.order_items, createTable dropped.payments⟩
  { created with
    customers := some ((created.customers.getD []) ++ [⟨1, "buyer@example.com"⟩]),
    products := some ((created.products.getD []) ++ [⟨1, hotSku, hotSku, price⟩]),
    inventory := some ((created.inventory.getD []) ++ [(1, stock)]) }

/-- An `inventory_by_sku` document. -/
structure MInvDoc where
  sku : String
  initial : Int
  available : Int
  deriving DecidableEq

/-- The Mongo rollback schema state as `setup_schema_and_seed` sees it. -/
structure MongoShopDb where
  inventory_by_sku : Option (List MInvDoc)
  orders : Option (List OrderSt)
  order_items_by_order : Option (List Unit)
  payments_by_order : Option (List Unit)
  orders_projection_by_id : Option (List Unit)
  deriving DecidableEq

/-- `ensure_collection`: create it, or clear it if it already exists. -/
def ensureCollection {α : Type} (t : Option (List α)) : Option (List α) :=
  match t with
  | none => some []
  | some _ => some []

/-- `setup_schema_and_seed` of the Mongo rollback benchmark as a state
transformer (drop every collection, ensure them, seed the inventory). -/
def mongoSetupSeed (hotSkus : List String) (stock : Int) (db : MongoShopDb) : MongoShopDb :=
  let dropped : MongoShopDb :=
    ⟨dropIfExists db.inventory_by_sku, dropIfExists db.orders,
      dropIfExists db.order_items_by_order, dropIfExists db.payments_by_order,
      dropIfExists db.orders_projection_by_id⟩
  let ensured : MongoShopDb :=
    ⟨ensureCollection dropped.inventory_by_sku, ensureCollection dropped.orders,
      ensureCollection dropped.order_items_by_order, ensureCollection dropped.payments_by_order,
      ensureCollection dropped.orders_projection_by_id⟩
  { ensured with
    inventory_by_sku := some ((ensured.inventory_by_sku.getD []) ++
      (hotSkus.map fun sku => ⟨sku, stock, stock⟩)) }

/-- C8: `setup()` is idempotent.  For every prior database state, running
setup twice leaves exactly the state of a single run, and the seeded
inventory is exactly the seed rows with their initial/available quantities:
a single `(product_id 1, stock)` row for the Postgres concurrent-orders
schema, and one `{sku, initial, available}` document per hot SKU (no
duplicate rows when the configured hot-SKU list has no duplicates) for the
Mongo rollback schema. -/
theorem c8_setup_idempotent (hotSku : String) (price : ℚ) (stock : Int)
    (hotSkus : List String) (db : PgShopDb) (mdb : MongoShopDb)
    (hnd : hotSkus.Nodup) :
    pgSetup hotSku price stock (pgSetup hotSku price stock db) = pgSetup hotSku price stock db ∧
    (pgSetup hotSku price stock db).inventory = some [(1, stock)] ∧
    mongoSetupSeed hotSkus stock (mongoSetupSeed hotSkus stock mdb) =
      mongoSetupSeed hotSkus stock mdb ∧
    (mongoSetupSeed hotSkus stock mdb).inventory_by_sku =
      some (hotSkus.map fun sku => ⟨sku, stock, stock⟩) ∧
    (((mongoSetupSeed hotSkus stock mdb).inventory_by_sku.getD []).map MInvDoc.sku).Nodup := by
  refine ⟨rfl, rfl, rfl, rfl, ?_⟩
  show ((some ((hotSkus.map fun sku => (⟨sku, stock, stock⟩ : MInvDoc))) :
    Option (List MInvDoc)).getD []).map MInvDoc.sku |>.Nodup
  rw [Option.getD_some, List.map_map]
  have : (MInvDoc.sku ∘ fun sku => (⟨sku, stock, stock⟩ : MInvDoc)) = id := rfl
  rw [this, List.map_id]
  exact hnd

/-- C8 witness: idempotence at a concrete configuration and prior state. -/
theorem c8_witness :
    pgSetup "SKU-HOT" 49 7 (pgSetup "SKU-HOT" 49 7 ⟨none, none, none, none, none, none⟩) =
      pgSetup "SKU-HOT" 49 7 ⟨none, none, none, none, none, none⟩ ∧
    (pgSetup "SKU-HOT" 49 7 ⟨none, none, none, none, none, none⟩).inventory = some [(1, 7)] ∧
    mongoSetupSeed ["SKU-000", "SKU-001"] 7
        (mongoSetupSeed ["SKU-000", "SKU-001"] 7 ⟨none, none, none, none, none⟩) =
      mongoSetupSeed ["SKU-000", "SKU-001"] 7 ⟨none, none, none, none, none⟩ ∧
    (((mongoSetupSeed ["SKU-000", "SKU-001"] 7
        ⟨none, none, none, none, none⟩).inventory_by_sku.getD []).map MInvDoc.sku).Nodup := by
  have hnd : (["SKU-000", "SKU-001"] : List String).Nodup := by decide
  have h := c8_setup_idempotent "SKU-HOT" 49 7 ["SKU-000", "SKU-001"]
    ⟨none, none, none, none, none, none⟩ ⟨none, none, none, none, none⟩ hnd
  exact ⟨h.1, h.2.1, h.2.2.1, h.2.2.2.2⟩
